import Mathlib

/-!
# Verification of the hashtag-collocation pipeline

Shallow embedding of `3_hashtags_cal_collo/import json.py`: extraction of
hashtag lists from post records, construction of the symmetric co-occurrence
matrix, PMI computation, and ranking of the top collocations.

Modelling conventions:
* JSON parsing (`json.loads`) is an external collaborator per the spec; the
  extractor receives the already-parsed list of records.
* A pandas `DataFrame` indexed by the vocabulary is modelled as a total
  function `Tag → Tag → _` together with the explicit vocabulary list; cells
  outside the vocabulary are never written and stay at the initial value.
* Python float arithmetic is idealised over `ℚ` (exact values) with `np.log2`
  as `Real.logb 2`.  Where the script would produce a float `nan` from `0/0`
  (numpy scalar division emits a warning, not an exception), the `ℚ`
  convention `0 / 0 = 0` produces `0`; both fail the strict `> 0` guards the
  script applies to such quotients, so the guarded behaviour coincides.
* `DataFrame.sort_values('pmi', ascending=False)` is modelled after pandas'
  `nargsort`: reverse the rows, sort ascending, reverse again.  The numpy
  kernel argsort is modelled by the stable `List.mergeSort`.
-/

namespace RtData

/-- A hashtag; the script works with plain (lowercased) Python strings. -/
abbrev Tag := String

/-- A post record.  The only field the script consumes is the optional
`hashtags` list (`if 'hashtags' in post`); everything else is ignored. -/
structure Record where
  hashtags : Option (List Tag)

/-- `load_and_extract_hashtags` (lines 7–27): for each post that has a
`hashtags` field, lowercase every tag and append the list to the accumulator
when it is non-empty. -/
def load_and_extract_hashtags (data : List Record) : List (List Tag) :=
  data.foldl
    (fun all_post_hashtags post =>
      match post.hashtags with
      | some tags =>
        let hashtags := tags.map String.toLower
        if hashtags ≠ [] then all_post_hashtags ++ [hashtags] else all_post_hashtags
      | none => all_post_hashtags)
    []

/-- The per-record step of the extractor, as a `filterMap` function. -/
def extractStep (post : Record) : Option (List Tag) :=
  match post.hashtags with
  | some tags =>
    let hashtags := tags.map String.toLower
    if hashtags ≠ [] then some hashtags else none
  | none => none

/-- `sorted(list(set(flattened tags)))` (line 35): the vocabulary of distinct
tags, sorted lexicographically. -/
def unique_hashtags (hashtag_lists : List (List Tag)) : List Tag :=
  (hashtag_lists.flatten.dedup).mergeSort (fun a b => decide (a ≤ b))

/-- `itertools.combinations(hashtags, 2)` (line 45): all positional pairs
`(l[i], l[j])` with `i < j`, in lexicographic positional order. -/
def combinations2 : List Tag → List (Tag × Tag)
  | [] => []
  | t :: ts => ts.map (fun u => (t, u)) ++ combinations2 ts

/-- One `.loc[t, u] += 1` update of a matrix cell. -/
def bump (m : Tag → Tag → ℕ) (t u : Tag) : Tag → Tag → ℕ :=
  fun x y => if x = t ∧ y = u then m x y + 1 else m x y

/-- The loop body for one pair `(tag1, tag2)` (lines 46–47): increment
`[tag1][tag2]` and then `[tag2][tag1]`. -/
def cooc_step (m : Tag → Tag → ℕ) (p : Tag × Tag) : Tag → Tag → ℕ :=
  bump (bump m p.1 p.2) p.2 p.1

/-- `calculate_cooccurrence_matrix` (lines 29–49): zero-initialised matrix,
then for every list and every positional pair `(tag1, tag2)` increment both
`[tag1][tag2]` and `[tag2][tag1]`.  Returns the matrix and the vocabulary. -/
def calculate_cooccurrence_matrix (hashtag_lists : List (List Tag)) :
    (Tag → Tag → ℕ) × List Tag :=
  (hashtag_lists.foldl
      (fun m hashtags => (combinations2 hashtags).foldl cooc_step m)
      (fun _ _ => 0),
   unique_hashtags hashtag_lists)

/-- `cooccurrence_matrix.sum().sum() / 2` (line 57): grand total of all matrix
entries over the vocabulary, halved. -/
def total_cooccurrences (matrix : Tag → Tag → ℕ) (vocab : List Tag) : ℚ :=
  ((vocab.map fun t2 => (vocab.map fun t1 => (matrix t1 t2 : ℚ)).sum).sum) / 2

/-- `marginal_probs = cooccurrence_matrix.sum() / total_cooccurrences`
(line 58): column sums divided by the total. -/
def marginal_probs (matrix : Tag → Tag → ℕ) (vocab : List Tag) (t : Tag) : ℚ :=
  (vocab.map fun t1 => (matrix t1 t : ℚ)).sum / total_cooccurrences matrix vocab

/-- The PMI value written at cell `(tag1, tag2)` (line 70):
`np.log2(joint_prob / (marginal_probs[tag1] * marginal_probs[tag2]))`. -/
noncomputable def pmi_val (matrix : Tag → Tag → ℕ) (vocab : List Tag)
    (tag1 tag2 : Tag) : ℝ :=
  Real.logb 2
    ((((matrix tag1 tag2 : ℚ) / total_cooccurrences matrix vocab) /
        (marginal_probs matrix vocab tag1 * marginal_probs matrix vocab tag2) : ℚ) : ℝ)

/-- The inner loop body of `calculate_pmi` (lines 66–71): for a fixed `tag1`
and the current `tag2`, write `pmi_val` at `[tag1][tag2]` when `tag1 != tag2`
and `joint_prob > 0`, otherwise leave the matrix unchanged. -/
noncomputable def pmi_inner (matrix : Tag → Tag → ℕ) (vocab : List Tag)
    (tag1 : Tag) (pm : Tag → Tag → ℝ) (tag2 : Tag) : Tag → Tag → ℝ :=
  if tag1 ≠ tag2 then
    if 0 < (matrix tag1 tag2 : ℚ) / total_cooccurrences matrix vocab then
      fun x y => if x = tag1 ∧ y = tag2 then pmi_val matrix vocab tag1 tag2 else pm x y
    else pm
  else pm

/-- The outer loop body of `calculate_pmi` (line 65): iterate the inner loop
over all columns for the current row `tag1`. -/
noncomputable def pmi_row (matrix : Tag → Tag → ℕ) (vocab : List Tag)
    (pm : Tag → Tag → ℝ) (tag1 : Tag) : Tag → Tag → ℝ :=
  vocab.foldl (pmi_inner matrix vocab tag1) pm

/-- `calculate_pmi` (lines 51–73): zero-initialised matrix; for every
`tag1 ≠ tag2` with `joint_prob > 0`, write the log-ratio at `[tag1][tag2]`. -/
noncomputable def calculate_pmi (matrix : Tag → Tag → ℕ) (vocab : List Tag) :
    Tag → Tag → ℝ :=
  vocab.foldl (pmi_row matrix vocab) (fun _ _ => 0)

/-- The upper-triangle enumeration of `get_top_collocations` (lines 80–84):
row-major over the index, keeping `(tag1, tag2, pmi)` whenever `tag1 < tag2`. -/
def pmi_values (pmi_matrix : Tag → Tag → ℝ) (vocab : List Tag) :
    List (Tag × Tag × ℝ) :=
  vocab.flatMap fun tag1 =>
    (vocab.filter fun tag2 => decide (tag1 < tag2)).map
      fun tag2 => (tag1, tag2, pmi_matrix tag1 tag2)

/-- The comparison `sort_values` applies: ascending on the `pmi` column. -/
noncomputable def pmiLe (r s : Tag × Tag × ℝ) : Bool :=
  decide (r.2.2 ≤ s.2.2)

/-- `collocations.sort_values('pmi', ascending=False)` (line 88), following
pandas `nargsort`: reverse the rows, argsort ascending (numpy kernel sort,
modelled as the stable `mergeSort`), and reverse the resulting order. -/
noncomputable def sort_values_desc (rows : List (Tag × Tag × ℝ)) :
    List (Tag × Tag × ℝ) :=
  ((rows.reverse).mergeSort pmiLe).reverse

/-- `get_top_collocations` (lines 75–88): enumerate the upper triangle, sort
descending by PMI, return the first `n` rows (`.head(n)`, default `n = 10`). -/
noncomputable def get_top_collocations (pmi_matrix : Tag → Tag → ℝ)
    (vocab : List Tag) (n : ℕ := 10) : List (Tag × Tag × ℝ) :=
  (sort_values_desc (pmi_values pmi_matrix vocab)).take n

/-- `analyze_hashtag_collocations` (lines 90–110): the full pipeline.  The
result bundles the co-occurrence matrix with its vocabulary index, the PMI
matrix, and the top collocations. -/
noncomputable def analyze_hashtag_collocations (data : List Record) :
    ((Tag → Tag → ℕ) × List Tag) × (Tag → Tag → ℝ) × List (Tag × Tag × ℝ) :=
  let hashtag_lists := load_and_extract_hashtags data
  let cm := calculate_cooccurrence_matrix hashtag_lists
  let pmi_matrix := calculate_pmi cm.1 cm.2
  let top_collocations := get_top_collocations pmi_matrix cm.2
  (cm, pmi_matrix, top_collocations)

/-- The spec's worked example: three posts with tag lists
`["a","b"]`, `["a","b"]`, `["a","c"]`. -/
def example_records : List Record :=
  [⟨some ["a", "b"]⟩, ⟨some ["a", "b"]⟩, ⟨some ["a", "c"]⟩]

/-! ## Extractor lemmas -/

theorem load_extract_foldl (data : List Record) (acc : List (List Tag)) :
    data.foldl
      (fun all_post_hashtags post =>
        match post.hashtags with
        | some tags =>
          let hashtags := tags.map String.toLower
          if hashtags ≠ [] then all_post_hashtags ++ [hashtags] else all_post_hashtags
        | none => all_post_hashtags)
      acc = acc ++ data.filterMap extractStep := by
  induction data generalizing acc with
  | nil => simp
  | cons post rest ih =>
    cases hp : post.hashtags with
    | none =>
      simp only [List.foldl_cons, List.filterMap_cons, extractStep, hp]
      exact ih acc
    | some tags =>
      simp only [List.foldl_cons, List.filterMap_cons, extractStep, hp]
      by_cases hne : tags.map String.toLower ≠ []
      · rw [if_pos hne, if_pos hne, ih]
        simp
      · rw [if_neg hne, if_neg hne, ih]

theorem load_extract_eq_filterMap (data : List Record) :
    load_and_extract_hashtags data = data.filterMap extractStep :=
  load_extract_foldl data []

/-! ## Co-occurrence counting lemmas -/

theorem bump_apply (m : Tag → Tag → ℕ) (t u x y : Tag) :
    bump m t u x y = m x y + (if x = t ∧ y = u then 1 else 0) := by
  simp only [bump]
  split_ifs <;> omega

theorem cooc_step_apply (m : Tag → Tag → ℕ) (p : Tag × Tag) (a b : Tag) :
    cooc_step m p a b =
      m a b + (if p = (a, b) then 1 else 0) + (if p = (b, a) then 1 else 0) := by
  obtain ⟨t, u⟩ := p
  have h1 : ((t, u) = (a, b)) ↔ (a = t ∧ b = u) := by
    constructor
    · intro h
      injection h with x y
      exact ⟨x.symm, y.symm⟩
    · rintro ⟨x, y⟩
      rw [x, y]
  have h2 : ((t, u) = (b, a)) ↔ (a = u ∧ b = t) := by
    constructor
    · intro h
      injection h with x y
      exact ⟨y.symm, x.symm⟩
    · rintro ⟨x, y⟩
      rw [x, y]
  simp only [cooc_step, bump_apply, h1, h2]

theorem foldl_cooc_step (ps : List (Tag × Tag)) (m : Tag → Tag → ℕ) (a b : Tag) :
    (ps.foldl cooc_step m) a b =
      m a b + ps.countP (fun p => decide (p = (a, b)))
        + ps.countP (fun p => decide (p = (b, a))) := by
  induction ps generalizing m with
  | nil => simp
  | cons p ps ih =>
    rw [List.foldl_cons, ih, List.countP_cons, List.countP_cons, cooc_step_apply]
    simp only [decide_eq_true_eq]
    omega

theorem foldl_lists_eq_foldl_flatMap (hashtag_lists : List (List Tag))
    (m : Tag → Tag → ℕ) :
    hashtag_lists.foldl
        (fun m hashtags => (combinations2 hashtags).foldl cooc_step m) m =
      (hashtag_lists.flatMap combinations2).foldl cooc_step m := by
  induction hashtag_lists generalizing m with
  | nil => simp
  | cons l ls ih => simp [List.flatMap_cons, List.foldl_append, ih]

/-- Pointwise value of the co-occurrence matrix: the number of enumerated
positional pairs equal to `(a, b)` plus the number equal to `(b, a)`. -/
theorem cooccurrence_eq_countP (hashtag_lists : List (List Tag)) (a b : Tag) :
    (calculate_cooccurrence_matrix hashtag_lists).1 a b =
      (hashtag_lists.flatMap combinations2).countP (fun p => decide (p = (a, b)))
        + (hashtag_lists.flatMap combinations2).countP (fun p => decide (p = (b, a))) := by
  show (hashtag_lists.foldl
      (fun m hashtags => (combinations2 hashtags).foldl cooc_step m)
      (fun _ _ => 0)) a b = _
  rw [foldl_lists_eq_foldl_flatMap, foldl_cooc_step]
  simp

/-! ## Vocabulary lemmas -/

theorem mem_unique_hashtags {a : Tag} {L : List (List Tag)} :
    a ∈ unique_hashtags L ↔ a ∈ L.flatten := by
  simp [unique_hashtags, List.mem_mergeSort, List.mem_dedup]

theorem nodup_unique_hashtags (L : List (List Tag)) : (unique_hashtags L).Nodup :=
  ((List.mergeSort_perm _ _).nodup_iff).mpr (List.nodup_dedup _)

theorem sorted_unique_hashtags (L : List (List Tag)) :
    (unique_hashtags L).Sorted (· ≤ ·) := by
  have h := @List.sorted_mergeSort Tag (fun a b : Tag => decide (a ≤ b))
    (fun a b c hab hbc => by
      simp only [decide_eq_true_eq] at *
      exact le_trans hab hbc)
    (fun a b => by
      simpa [Bool.or_eq_true, decide_eq_true_eq] using le_total a b)
    (L.flatten.dedup)
  exact h.imp (by simp)

/-- The vocabulary is the unique sorted duplicate-free listing of the tags. -/
theorem unique_hashtags_eq {L : List (List Tag)} {V : List Tag}
    (hperm : L.flatten.dedup.Perm V) (hsort : V.Sorted (· ≤ ·)) :
    unique_hashtags L = V :=
  List.eq_of_perm_of_sorted ((List.mergeSort_perm _ _).trans hperm)
    (sorted_unique_hashtags L) hsort

/-! ## PMI characterization -/

theorem pmi_inner_apply (M : Tag → Tag → ℕ) (V : List Tag) (t1 : Tag)
    (pm : Tag → Tag → ℝ) (t2 x y : Tag) :
    pmi_inner M V t1 pm t2 x y =
      if x = t1 ∧ y = t2 ∧ x ≠ y ∧ 0 < (M x y : ℚ) / total_cooccurrences M V
      then pmi_val M V x y else pm x y := by
  by_cases hx : x = t1 <;> by_cases hy : y = t2 <;>
    by_cases hne : t1 ≠ t2 <;>
    by_cases hj : 0 < (M t1 t2 : ℚ) / total_cooccurrences M V <;>
    simp_all [pmi_inner, ite_apply, ite_self]

theorem pmi_row_foldl (M : Tag → Tag → ℕ) (V : List Tag) (cols : List Tag)
    (t1 : Tag) (pm : Tag → Tag → ℝ) (x y : Tag) :
    (cols.foldl (pmi_inner M V t1) pm) x y =
      if x = t1 ∧ y ∈ cols ∧ x ≠ y ∧ 0 < (M x y : ℚ) / total_cooccurrences M V
      then pmi_val M V x y else pm x y := by
  induction cols generalizing pm with
  | nil => simp
  | cons t2 cols ih =>
    rw [List.foldl_cons, ih, pmi_inner_apply]
    by_cases hx : x = t1 <;> by_cases hm : y ∈ cols <;> by_cases hy : y = t2 <;>
      by_cases hP : x ≠ y ∧ 0 < (M x y : ℚ) / total_cooccurrences M V <;>
      simp_all [List.mem_cons]

theorem calculate_pmi_foldl (M : Tag → Tag → ℕ) (V : List Tag)
    (rows : List Tag) (pm : Tag → Tag → ℝ) (x y : Tag) :
    (rows.foldl (pmi_row M V) pm) x y =
      if x ∈ rows ∧ y ∈ V ∧ x ≠ y ∧ 0 < (M x y : ℚ) / total_cooccurrences M V
      then pmi_val M V x y else pm x y := by
  induction rows generalizing pm with
  | nil => simp
  | cons t1 rows ih =>
    rw [List.foldl_cons, ih]
    show _ = if x ∈ t1 :: rows ∧ _ ∧ _ ∧ _ then _ else _
    rw [pmi_row, pmi_row_foldl]
    by_cases hx : x = t1 <;> by_cases hm : x ∈ rows <;>
      by_cases hQ : y ∈ V ∧ x ≠ y ∧ 0 < (M x y : ℚ) / total_cooccurrences M V <;>
      simp_all [List.mem_cons]

/-- Pointwise value of the PMI matrix: `pmi_val` at off-diagonal vocabulary
cells with positive joint probability, `0` everywhere else. -/
theorem calculate_pmi_apply (M : Tag → Tag → ℕ) (V : List Tag) (x y : Tag) :
    calculate_pmi M V x y =
      if x ∈ V ∧ y ∈ V ∧ x ≠ y ∧ 0 < (M x y : ℚ) / total_cooccurrences M V
      then pmi_val M V x y else 0 := by
  rw [calculate_pmi, calculate_pmi_foldl]

/-! ## Ranker lemmas -/

theorem pmiLe_trans (a b c : Tag × Tag × ℝ) (hab : pmiLe a b) (hbc : pmiLe b c) :
    pmiLe a c := by
  simp only [pmiLe, decide_eq_true_eq] at *
  exact le_trans hab hbc

theorem pmiLe_total (a b : Tag × Tag × ℝ) : pmiLe a b || pmiLe b a := by
  simpa [pmiLe, Bool.or_eq_true] using le_total a.2.2 b.2.2

theorem sort_values_desc_perm (rows : List (Tag × Tag × ℝ)) :
    (sort_values_desc rows).Perm rows := by
  rw [sort_values_desc]
  exact ((List.reverse_perm _).trans (List.mergeSort_perm _ _)).trans
    (List.reverse_perm _)

theorem sorted_sort_values_desc (rows : List (Tag × Tag × ℝ)) :
    (sort_values_desc rows).Pairwise (fun r s => s.2.2 ≤ r.2.2) := by
  have h := @List.sorted_mergeSort (Tag × Tag × ℝ) pmiLe
    (fun a b c => pmiLe_trans a b c) pmiLe_total rows.reverse
  rw [sort_values_desc]
  rw [List.pairwise_reverse]
  exact h.imp (fun hab => by simpa [pmiLe] using hab)

/-! ## Worked example: three posts with tags `["a","b"]`, `["a","b"]`, `["a","c"]` -/

theorem toLower_a : String.toLower "a" = "a" := by
  rw [show String.toLower "a" = String.map Char.toLower "a" from rfl, String.map_eq]
  decide

theorem toLower_b : String.toLower "b" = "b" := by
  rw [show String.toLower "b" = String.map Char.toLower "b" from rfl, String.map_eq]
  decide

theorem toLower_c : String.toLower "c" = "c" := by
  rw [show String.toLower "c" = String.map Char.toLower "c" from rfl, String.map_eq]
  decide

theorem str_lt_ab : ("a" : String) < "b" := by
  rw [String.lt_iff_toList_lt]
  decide

theorem str_lt_ac : ("a" : String) < "c" := by
  rw [String.lt_iff_toList_lt]
  decide

theorem str_lt_bc : ("b" : String) < "c" := by
  rw [String.lt_iff_toList_lt]
  decide

theorem str_not_lt_ba : ¬ ("b" : String) < "a" := by
  rw [String.lt_iff_toList_lt]
  decide

theorem str_not_lt_ca : ¬ ("c" : String) < "a" := by
  rw [String.lt_iff_toList_lt]
  decide

theorem str_not_lt_cb : ¬ ("c" : String) < "b" := by
  rw [String.lt_iff_toList_lt]
  decide

theorem ex_lists :
    load_and_extract_hashtags example_records = [["a", "b"], ["a", "b"], ["a", "c"]] := by
  simp [load_and_extract_hashtags, example_records, toLower_a, toLower_b, toLower_c]

theorem ex_vocab :
    unique_hashtags [["a", "b"], ["a", "b"], ["a", "c"]] = ["a", "b", "c"] := by
  apply unique_hashtags_eq
  · decide
  · simp only [List.sorted_cons, List.mem_cons, List.mem_singleton, List.not_mem_nil]
    refine ⟨?_, ?_, by simp⟩ <;> intro b hb <;> rcases hb with hb | hb <;>
      simp_all [le_of_lt str_lt_ab, le_of_lt str_lt_ac, le_of_lt str_lt_bc]

theorem ex_M_ab :
    (calculate_cooccurrence_matrix [["a", "b"], ["a", "b"], ["a", "c"]]).1 "a" "b" = 2 := by
  decide

theorem ex_M_ac :
    (calculate_cooccurrence_matrix [["a", "b"], ["a", "b"], ["a", "c"]]).1 "a" "c" = 1 := by
  decide

theorem ex_M_bc :
    (calculate_cooccurrence_matrix [["a", "b"], ["a", "b"], ["a", "c"]]).1 "b" "c" = 0 := by
  decide

theorem ex_M_ba :
    (calculate_cooccurrence_matrix [["a", "b"], ["a", "b"], ["a", "c"]]).1 "b" "a" = 2 := by
  decide

theorem ex_M_ca :
    (calculate_cooccurrence_matrix [["a", "b"], ["a", "b"], ["a", "c"]]).1 "c" "a" = 1 := by
  decide

theorem ex_M_cb :
    (calculate_cooccurrence_matrix [["a", "b"], ["a", "b"], ["a", "c"]]).1 "c" "b" = 0 := by
  decide

theorem ex_M_aa :
    (calculate_cooccurrence_matrix [["a", "b"], ["a", "b"], ["a", "c"]]).1 "a" "a" = 0 := by
  decide

theorem ex_M_bb :
    (calculate_cooccurrence_matrix [["a", "b"], ["a", "b"], ["a", "c"]]).1 "b" "b" = 0 := by
  decide

theorem ex_M_cc :
    (calculate_cooccurrence_matrix [["a", "b"], ["a", "b"], ["a", "c"]]).1 "c" "c" = 0 := by
  decide

theorem ex_total :
    total_cooccurrences (calculate_cooccurrence_matrix [["a", "b"], ["a", "b"], ["a", "c"]]).1
      ["a", "b", "c"] = 3 := by
  simp [total_cooccurrences, ex_M_aa, ex_M_ab, ex_M_ac, ex_M_ba, ex_M_bb, ex_M_bc,
    ex_M_ca, ex_M_cb, ex_M_cc]
  norm_num

theorem ex_marginal_a :
    marginal_probs (calculate_cooccurrence_matrix [["a", "b"], ["a", "b"], ["a", "c"]]).1
      ["a", "b", "c"] "a" = 1 := by
  simp [marginal_probs, ex_total, ex_M_aa, ex_M_ba, ex_M_ca]
  norm_num

theorem ex_marginal_b :
    marginal_probs (calculate_cooccurrence_matrix [["a", "b"], ["a", "b"], ["a", "c"]]).1
      ["a", "b", "c"] "b" = 2 / 3 := by
  simp [marginal_probs, ex_total, ex_M_ab, ex_M_bb, ex_M_cb]

theorem ex_marginal_c :
    marginal_probs (calculate_cooccurrence_matrix [["a", "b"], ["a", "b"], ["a", "c"]]).1
      ["a", "b", "c"] "c" = 1 / 3 := by
  simp [marginal_probs, ex_total, ex_M_ac, ex_M_bc, ex_M_cc]

theorem ex_pmi_ab :
    calculate_pmi (calculate_cooccurrence_matrix [["a", "b"], ["a", "b"], ["a", "c"]]).1
      ["a", "b", "c"] "a" "b" = 0 := by
  rw [calculate_pmi_apply, if_pos]
  · rw [pmi_val, ex_M_ab, ex_total, ex_marginal_a, ex_marginal_b]
    norm_num [Real.logb_one]
  · refine ⟨by simp, by simp, by decide, ?_⟩
    rw [ex_M_ab, ex_total]
    norm_num

theorem ex_pmi_ac :
    calculate_pmi (calculate_cooccurrence_matrix [["a", "b"], ["a", "b"], ["a", "c"]]).1
      ["a", "b", "c"] "a" "c" = 0 := by
  rw [calculate_pmi_apply, if_pos]
  · rw [pmi_val, ex_M_ac, ex_total, ex_marginal_a, ex_marginal_c]
    norm_num [Real.logb_one]
  · refine ⟨by simp, by simp, by decide, ?_⟩
    rw [ex_M_ac, ex_total]
    norm_num

theorem ex_pmi_bc :
    calculate_pmi (calculate_cooccurrence_matrix [["a", "b"], ["a", "b"], ["a", "c"]]).1
      ["a", "b", "c"] "b" "c" = 0 := by
  rw [calculate_pmi_apply, if_neg]
  rw [ex_M_bc, ex_total]
  simp

theorem ex_pmi_values :
    pmi_values
        (calculate_pmi (calculate_cooccurrence_matrix [["a", "b"], ["a", "b"], ["a", "c"]]).1
          ["a", "b", "c"])
        ["a", "b", "c"] =
      [("a", "b", (0 : ℝ)), ("a", "c", 0), ("b", "c", 0)] := by
  simp [pmi_values, List.filter_cons, str_lt_ab, str_lt_ac, str_lt_bc,
    str_not_lt_ba, str_not_lt_ca, str_not_lt_cb, lt_self_iff_false,
    ex_pmi_ab, ex_pmi_ac, ex_pmi_bc,
    show (['a'] : List Char) < ['b'] from by decide,
    show (['a'] : List Char) < ['c'] from by decide,
    show (['b'] : List Char) < ['c'] from by decide,
    show ¬ (['a'] : List Char) < ['a'] from by decide,
    show ¬ (['b'] : List Char) < ['a'] from by decide,
    show ¬ (['b'] : List Char) < ['b'] from by decide,
    show ¬ (['c'] : List Char) < ['a'] from by decide,
    show ¬ (['c'] : List Char) < ['b'] from by decide,
    show ¬ (['c'] : List Char) < ['c'] from by decide]

theorem ex_sort :
    sort_values_desc [("a", "b", (0 : ℝ)), ("a", "c", 0), ("b", "c", 0)] =
      [("a", "b", (0 : ℝ)), ("a", "c", 0), ("b", "c", 0)] := by
  rw [sort_values_desc]
  rw [List.mergeSort_of_sorted (by simp [pmiLe, List.pairwise_cons])]
  simp

theorem ex_top :
    get_top_collocations
        (calculate_pmi (calculate_cooccurrence_matrix [["a", "b"], ["a", "b"], ["a", "c"]]).1
          ["a", "b", "c"])
        ["a", "b", "c"] =
      [("a", "b", (0 : ℝ)), ("a", "c", 0), ("b", "c", 0)] := by
  rw [get_top_collocations, ex_pmi_values, ex_sort]
  simp

theorem ex_vocab_snd :
    (calculate_cooccurrence_matrix [["a", "b"], ["a", "b"], ["a", "c"]]).2 = ["a", "b", "c"] :=
  ex_vocab

theorem ex_analyze :
    analyze_hashtag_collocations example_records =
      (calculate_cooccurrence_matrix [["a", "b"], ["a", "b"], ["a", "c"]],
       calculate_pmi (calculate_cooccurrence_matrix [["a", "b"], ["a", "b"], ["a", "c"]]).1
         ["a", "b", "c"],
       [("a", "b", (0 : ℝ)), ("a", "c", 0), ("b", "c", 0)]) := by
  simp only [analyze_hashtag_collocations, ex_lists, ex_vocab_snd, ex_top]

/-! ## Count conservation machinery -/

theorem combinations2_mem {l : List Tag} {p : Tag × Tag} (hp : p ∈ combinations2 l) :
    p.1 ∈ l ∧ p.2 ∈ l := by
  induction l with
  | nil => simp [combinations2] at hp
  | cons t ts ih =>
    rw [combinations2, List.mem_append] at hp
    rcases hp with hp | hp
    · obtain ⟨u, hu, rfl⟩ := List.mem_map.mp hp
      exact ⟨List.mem_cons_self _ _, List.mem_cons_of_mem _ hu⟩
    · exact ⟨List.mem_cons_of_mem _ (ih hp).1, List.mem_cons_of_mem _ (ih hp).2⟩

theorem length_combinations2 (l : List Tag) :
    (combinations2 l).length = l.length * (l.length - 1) / 2 := by
  induction l with
  | nil => simp [combinations2]
  | cons t ts ih =>
    rw [combinations2, List.length_append, List.length_map, ih]
    calc ts.length + ts.length * (ts.length - 1) / 2
        = ts.length.choose 1 + ts.length.choose 2 := by
          rw [Nat.choose_one_right, Nat.choose_two_right]
      _ = (ts.length + 1).choose 2 := (Nat.choose_succ_succ _ 1).symm
      _ = (ts.length + 1) * (ts.length + 1 - 1) / 2 := by rw [Nat.choose_two_right]
      _ = (t :: ts).length * ((t :: ts).length - 1) / 2 := by rw [List.length_cons]

theorem sum_ite_eq_one {V : List Tag} (hV : V.Nodup) {c : Tag} (hc : c ∈ V) :
    (V.map fun b => if b = c then 1 else 0).sum = 1 := by
  induction V with
  | nil => simp at hc
  | cons a V ih =>
    rw [List.map_cons, List.sum_cons]
    rcases List.mem_cons.mp hc with hca | hc2
    · rw [if_pos hca.symm]
      have hzero : (V.map fun b => if b = c then 1 else 0).sum = 0 := by
        apply List.sum_eq_zero
        intro x hx
        obtain ⟨b, hb, rfl⟩ := List.mem_map.mp hx
        have hbc : b ≠ c := fun h => (List.nodup_cons.mp hV).1 ((h.trans hca) ▸ hb)
        rw [if_neg hbc]
      rw [hzero]
    · have hac : a ≠ c := fun h => (List.nodup_cons.mp hV).1 (h ▸ hc2)
      rw [if_neg hac, ih (List.nodup_cons.mp hV).2 hc2]

theorem sum_double_ite {V : List Tag} (hV : V.Nodup) (q : Tag × Tag)
    (h1 : q.1 ∈ V) (h2 : q.2 ∈ V) :
    ((V.map fun a => ((V.map fun b => if q = (a, b) then 1 else 0)).sum).sum) = 1 := by
  have hinner : ∀ a : Tag,
      ((V.map fun b => if q = (a, b) then 1 else 0)).sum = if a = q.1 then 1 else 0 := by
    intro a
    by_cases ha : a = q.1
    · rw [if_pos ha]
      have he : (fun b => if q = (a, b) then 1 else 0) = fun b => if b = q.2 then 1 else 0 := by
        funext b
        by_cases hb : b = q.2
        · rw [if_pos hb, if_pos (by rw [ha, hb])]
        · rw [if_neg hb, if_neg fun h => hb (congrArg Prod.snd h).symm]
      rw [he, sum_ite_eq_one hV h2]
    · rw [if_neg ha]
      apply List.sum_eq_zero
      intro x hx
      obtain ⟨b, hb, rfl⟩ := List.mem_map.mp hx
      have : q ≠ (a, b) := by
        intro h
        exact ha (by rw [h])
      rw [if_neg this]
  rw [List.map_congr_left fun a _ => hinner a]
  exact sum_ite_eq_one hV h1

theorem sum_sum_countP {V : List Tag} (hV : V.Nodup) (P : List (Tag × Tag))
    (hP : ∀ p ∈ P, p.1 ∈ V ∧ p.2 ∈ V) :
    ((V.map fun a =>
        ((V.map fun b => P.countP (fun p => decide (p = (a, b))))).sum).sum) = P.length := by
  induction P with
  | nil => simp
  | cons q P ih =>
    have hsplit : ∀ a : Tag,
        ((V.map fun b => (q :: P).countP (fun p => decide (p = (a, b))))).sum =
          ((V.map fun b => P.countP (fun p => decide (p = (a, b))))).sum +
            ((V.map fun b => if q = (a, b) then 1 else 0)).sum := by
      intro a
      rw [← List.sum_map_add]
      apply congrArg
      apply List.map_congr_left
      intro b _
      rw [List.countP_cons]
      simp
    rw [List.map_congr_left fun a _ => hsplit a, List.sum_map_add]
    rw [ih fun p hp => hP p (List.mem_cons_of_mem _ hp)]
    rw [sum_double_ite hV q (hP q (List.mem_cons_self _ _)).1 (hP q (List.mem_cons_self _ _)).2]
    simp [List.length_cons]

theorem list_sum_comm (V W : List Tag) (f : Tag → Tag → ℕ) :
    ((V.map fun a => ((W.map fun b => f a b)).sum).sum) =
      ((W.map fun b => ((V.map fun a => f a b)).sum).sum) := by
  induction V with
  | nil => simp
  | cons a V ih =>
    rw [List.map_cons, List.sum_cons, ih, ← List.sum_map_add]
    simp only [List.map_cons, List.sum_cons]

/-! ## Empty input, diagonal, symmetry -/

theorem unique_hashtags_nil : unique_hashtags [] = [] := by
  simp [unique_hashtags]

theorem sort_values_desc_nil : sort_values_desc [] = [] := by
  simp [sort_values_desc]

theorem analyze_nil :
    analyze_hashtag_collocations [] =
      (((fun _ _ => 0), []), (fun _ _ => 0), []) := by
  simp only [analyze_hashtag_collocations, load_and_extract_hashtags, List.foldl_nil,
    calculate_cooccurrence_matrix, unique_hashtags_nil, calculate_pmi,
    get_top_collocations, pmi_values, List.flatMap_nil, sort_values_desc_nil,
    List.take_nil]

theorem combinations2_no_diag {l : List Tag} (hl : l.Nodup) {p : Tag × Tag}
    (hp : p ∈ combinations2 l) : p.1 ≠ p.2 := by
  induction l with
  | nil => simp [combinations2] at hp
  | cons t ts ih =>
    rw [combinations2, List.mem_append] at hp
    rcases hp with hp | hp
    · obtain ⟨u, hu, rfl⟩ := List.mem_map.mp hp
      intro h
      have h2 : t = u := h
      exact (List.nodup_cons.mp hl).1 (show t ∈ ts from by rw [h2]; exact hu)
    · exact ih (List.nodup_cons.mp hl).2 hp

theorem cooc_diag_zero (ls : List (List Tag)) (h : ∀ l ∈ ls, l.Nodup) (a : Tag) :
    (calculate_cooccurrence_matrix ls).1 a a = 0 := by
  rw [cooccurrence_eq_countP]
  have hz : (ls.flatMap combinations2).countP (fun p => decide (p = (a, a))) = 0 := by
    rw [List.countP_eq_zero]
    intro p hp
    obtain ⟨l, hl, hpl⟩ := List.mem_flatMap.mp hp
    have hne := combinations2_no_diag (h l hl) hpl
    simp only [decide_eq_true_eq]
    intro he
    exact hne (by rw [he])
  rw [hz]

theorem cooccurrence_symm (ls : List (List Tag)) (a b : Tag) :
    (calculate_cooccurrence_matrix ls).1 a b = (calculate_cooccurrence_matrix ls).1 b a := by
  rw [cooccurrence_eq_countP, cooccurrence_eq_countP]
  exact Nat.add_comm _ _

theorem calculate_pmi_symm_of_symm (M : Tag → Tag → ℕ) (V : List Tag)
    (hM : ∀ x y, M x y = M y x) (a b : Tag) :
    calculate_pmi M V a b = calculate_pmi M V b a := by
  rw [calculate_pmi_apply, calculate_pmi_apply, pmi_val, pmi_val, hM a b]
  apply if_congr
  · constructor
    · rintro ⟨x, y, z, w⟩
      exact ⟨y, x, z.symm, w⟩
    · rintro ⟨x, y, z, w⟩
      exact ⟨y, x, z.symm, w⟩
  · rw [mul_comm (marginal_probs M V a) (marginal_probs M V b)]
  · rfl

theorem pmi_diag_zero (M : Tag → Tag → ℕ) (V : List Tag) (a : Tag) :
    calculate_pmi M V a a = 0 := by
  rw [calculate_pmi_apply, if_neg]
  rintro ⟨-, -, hne, -⟩
  exact hne rfl

/-! ## Claim theorems -/

/-- Claim C1, counterexample to the original statement: in the worked example
the pair `(b, c)` is NOT absent from the top-collocation list — it appears
with PMI 0, because the ranker enumerates every upper-triangle pair and
`head(10)` keeps all three. -/
theorem worked_example_bc_present :
    ("b", "c", (0 : ℝ)) ∈ (analyze_hashtag_collocations example_records).2.2 := by
  rw [ex_analyze]
  simp

/-- Claim C1 (amended): for the three posts `["a","b"]`, `["a","b"]`,
`["a","c"]` the pipeline produces Vocabulary `["a","b","c"]`, co-occurrence
counts ab = 2, ac = 1, bc = 0, totalCooccurrences 3, marginals 1, 2/3, 1/3,
PMI(a,b) = PMI(a,c) = 0, and the top-collocation list contains all three
upper-triangle pairs tied at 0 — `[(a,b,0), (a,c,0), (b,c,0)]` — with
`(b,c)` present at 0 rather than absent. -/
theorem worked_example_amended :
    (analyze_hashtag_collocations example_records).1.2 = ["a", "b", "c"]
    ∧ (analyze_hashtag_collocations example_records).1.1 "a" "b" = 2
    ∧ (analyze_hashtag_collocations example_records).1.1 "a" "c" = 1
    ∧ (analyze_hashtag_collocations example_records).1.1 "b" "c" = 0
    ∧ total_cooccurrences (analyze_hashtag_collocations example_records).1.1
        (analyze_hashtag_collocations example_records).1.2 = 3
    ∧ marginal_probs (analyze_hashtag_collocations example_records).1.1
        (analyze_hashtag_collocations example_records).1.2 "a" = 1
    ∧ marginal_probs (analyze_hashtag_collocations example_records).1.1
        (analyze_hashtag_collocations example_records).1.2 "b" = 2 / 3
    ∧ marginal_probs (analyze_hashtag_collocations example_records).1.1
        (analyze_hashtag_collocations example_records).1.2 "c" = 1 / 3
    ∧ (analyze_hashtag_collocations example_records).2.1 "a" "b" = 0
    ∧ (analyze_hashtag_collocations example_records).2.1 "a" "c" = 0
    ∧ (analyze_hashtag_collocations example_records).2.2 =
        [("a", "b", (0 : ℝ)), ("a", "c", 0), ("b", "c", 0)] := by
  rw [ex_analyze]
  dsimp only
  exact ⟨ex_vocab_snd, ex_M_ab, ex_M_ac, ex_M_bc,
    by rw [ex_vocab_snd]; exact ex_total,
    by rw [ex_vocab_snd]; exact ex_marginal_a,
    by rw [ex_vocab_snd]; exact ex_marginal_b,
    by rw [ex_vocab_snd]; exact ex_marginal_c,
    ex_pmi_ab, ex_pmi_ac, rfl⟩

/-- Claim C2, counterexample to the original statement: a tag list with a
duplicated tag does write the diagonal — `combinations(["a","a"], 2)` yields
the positional pair `("a","a")` and both increments hit the cell `[a][a]`,
leaving it at 2, not 0. -/
theorem diagonal_counterexample :
    (calculate_cooccurrence_matrix [["a", "a"]]).1 "a" "a" = 2
    ∧ ¬ (calculate_cooccurrence_matrix [["a", "a"]]).1 "a" "a" = 0 := by
  decide

/-- Claim C2 (amended): the co-occurrence diagonal stays 0 for every input
whose tag lists contain no duplicated tag, and the PMI diagonal is 0 for
every matrix and vocabulary (the `tag1 != tag2` guard always skips the
diagonal). -/
theorem diagonal_amended :
    (∀ ls : List (List Tag), (∀ l ∈ ls, l.Nodup) →
        ∀ a, (calculate_cooccurrence_matrix ls).1 a a = 0)
    ∧ ∀ (M : Tag → Tag → ℕ) (V : List Tag) (a : Tag), calculate_pmi M V a a = 0 :=
  ⟨cooc_diag_zero, pmi_diag_zero⟩

/-- Witness for C2 (amended): concrete duplicate-free input. -/
theorem diagonal_amended_witness :
    (∀ l ∈ [["a", "b"]], l.Nodup)
    ∧ (calculate_cooccurrence_matrix [["a", "b"]]).1 "a" "a" = 0 :=
  ⟨by decide, diagonal_amended.1 [["a", "b"]] (by decide) "a"⟩

/-- Claim C4: when `totalCooccurrences` is 0 the PMI matrix is all zero (the
`joint_prob > 0` guard always fails, so no division result is ever written),
and on zero records the pipeline returns an empty vocabulary, zero matrices
and an empty collocation list; all functions are total, so no exception is
raised. -/
theorem pmi_total_zero_guard :
    (∀ (M : Tag → Tag → ℕ) (V : List Tag), total_cooccurrences M V = 0 →
        ∀ x y, calculate_pmi M V x y = 0)
    ∧ analyze_hashtag_collocations [] = (((fun _ _ => 0), []), (fun _ _ => 0), []) := by
  refine ⟨?_, analyze_nil⟩
  intro M V h x y
  rw [calculate_pmi_apply, if_neg]
  rintro ⟨-, -, -, hj⟩
  rw [h, div_zero] at hj
  exact lt_irrefl 0 hj

/-- Witness for C4: a vocabulary with an all-zero matrix. -/
theorem pmi_total_zero_guard_witness :
    total_cooccurrences (fun _ _ => 0) ["a"] = 0
    ∧ calculate_pmi (fun _ _ => 0) ["a"] "a" "b" = 0 := by
  have h : total_cooccurrences (fun _ _ => 0) ["a"] = 0 := by
    simp [total_cooccurrences]
  exact ⟨h, pmi_total_zero_guard.1 _ _ h "a" "b"⟩

/-- Claim C5: for every input and all tags, the co-occurrence matrix and the
PMI matrix computed from it are symmetric. -/
theorem matrices_symmetric (ls : List (List Tag)) (a b : Tag) :
    (calculate_cooccurrence_matrix ls).1 a b = (calculate_cooccurrence_matrix ls).1 b a
    ∧ calculate_pmi (calculate_cooccurrence_matrix ls).1
        (calculate_cooccurrence_matrix ls).2 a b
      = calculate_pmi (calculate_cooccurrence_matrix ls).1
        (calculate_cooccurrence_matrix ls).2 b a :=
  ⟨cooccurrence_symm ls a b,
   calculate_pmi_symm_of_symm _ _ (fun x y => cooccurrence_symm ls x y) a b⟩

/-- Claim C6: the sum of all co-occurrence matrix entries over the vocabulary
equals 2 times the number of positional pairs enumerated across all tag
lists; a list of length k contributes k*(k-1)/2 pairs. -/
theorem count_conservation (ls : List (List Tag)) :
    ((((calculate_cooccurrence_matrix ls).2).map fun a =>
        ((((calculate_cooccurrence_matrix ls).2).map fun b =>
          (calculate_cooccurrence_matrix ls).1 a b)).sum).sum) =
      2 * (ls.map fun l => l.length * (l.length - 1) / 2).sum := by
  have hVn : ((calculate_cooccurrence_matrix ls).2).Nodup := nodup_unique_hashtags ls
  have hmem : ∀ p ∈ ls.flatMap combinations2,
      p.1 ∈ (calculate_cooccurrence_matrix ls).2
        ∧ p.2 ∈ (calculate_cooccurrence_matrix ls).2 := by
    intro p hp
    obtain ⟨l, hl, hpl⟩ := List.mem_flatMap.mp hp
    have h2 := combinations2_mem hpl
    exact ⟨mem_unique_hashtags.mpr (List.mem_flatten.mpr ⟨l, hl, h2.1⟩),
           mem_unique_hashtags.mpr (List.mem_flatten.mpr ⟨l, hl, h2.2⟩)⟩
  have hsplit : ∀ a, ((((calculate_cooccurrence_matrix ls).2).map fun b =>
        (calculate_cooccurrence_matrix ls).1 a b)).sum
      = ((((calculate_cooccurrence_matrix ls).2).map fun b =>
          (ls.flatMap combinations2).countP (fun p => decide (p = (a, b))))).sum
        + ((((calculate_cooccurrence_matrix ls).2).map fun b =>
          (ls.flatMap combinations2).countP (fun p => decide (p = (b, a))))).sum := by
    intro a
    rw [← List.sum_map_add]
    exact congrArg List.sum (List.map_congr_left fun b _ => cooccurrence_eq_countP ls a b)
  rw [List.map_congr_left fun a _ => hsplit a, List.sum_map_add]
  rw [sum_sum_countP hVn _ hmem]
  rw [list_sum_comm]
  rw [sum_sum_countP hVn _ hmem]
  rw [List.length_flatMap]
  have hlen : (List.map (List.length ∘ combinations2) ls).sum
      = (ls.map fun l => l.length * (l.length - 1) / 2).sum :=
    congrArg List.sum (List.map_congr_left fun l _ => by
      simp only [Function.comp_apply]
      exact length_combinations2 l)
  rw [hlen]
  omega

/-- Claim C7: the extractor is exactly a `filterMap`: it lowercases the tags
of every record that has a `hashtags` field, keeps the lowercased list
exactly when it is non-empty (in input order), and silently skips records
with a missing field or an empty list; moreover no emitted list is empty. -/
theorem extractor_props (data : List Record) :
    load_and_extract_hashtags data = data.filterMap extractStep
    ∧ ∀ l ∈ load_and_extract_hashtags data, l ≠ [] := by
  refine ⟨load_extract_eq_filterMap data, ?_⟩
  intro l hl
  rw [load_extract_eq_filterMap] at hl
  obtain ⟨post, hpost, hstep⟩ := List.mem_filterMap.mp hl
  cases hp : post.hashtags with
  | none => simp [extractStep, hp] at hstep
  | some tags =>
    simp only [extractStep, hp] at hstep
    by_cases hne : tags.map String.toLower ≠ []
    · rw [if_pos hne] at hstep
      cases hstep
      exact hne
    · rw [if_neg hne] at hstep
      cases hstep

/-- Witness for C7: the worked-example records. -/
theorem extractor_props_witness : (["a", "b"] : List Tag) ≠ [] :=
  (extractor_props example_records).2 ["a", "b"] (by rw [ex_lists]; simp)

/-- Claim C8: for any matrix and vocabulary, at distinct vocabulary tags with
positive total, the PMI entry is `log2(jointProb / (marginal*marginal))` when
the joint probability is positive and exactly 0 otherwise. -/
theorem pmi_formula (M : Tag → Tag → ℕ) (V : List Tag) (t1 t2 : Tag)
    (h1 : t1 ∈ V) (h2 : t2 ∈ V) (hne : t1 ≠ t2)
    (htot : 0 < total_cooccurrences M V) :
    calculate_pmi M V t1 t2 =
      if 0 < (M t1 t2 : ℚ) / total_cooccurrences M V then
        Real.logb 2
          ((((M t1 t2 : ℚ) / total_cooccurrences M V : ℚ) : ℝ) /
            (((marginal_probs M V t1 : ℚ) : ℝ) * ((marginal_probs M V t2 : ℚ) : ℝ)))
      else 0 := by
  rw [calculate_pmi_apply]
  by_cases hj : 0 < (M t1 t2 : ℚ) / total_cooccurrences M V
  · rw [if_pos ⟨h1, h2, hne, hj⟩, if_pos hj, pmi_val]
    push_cast
    rfl
  · rw [if_neg (fun h => hj h.2.2.2), if_neg hj]

/-- Witness for C8: two tags, one co-occurrence. -/
theorem pmi_formula_witness :
    ("a" : Tag) ∈ (["a", "b"] : List Tag)
    ∧ (0 : ℚ) < total_cooccurrences (fun x y => if x = y then 0 else 1) ["a", "b"]
    ∧ calculate_pmi (fun x y => if x = y then 0 else 1) ["a", "b"] "a" "b" =
        if 0 < ((if ("a" : Tag) = "b" then 0 else 1 : ℕ) : ℚ) /
            total_cooccurrences (fun x y => if x = y then 0 else 1) ["a", "b"] then
          Real.logb 2
            (((((if ("a" : Tag) = "b" then 0 else 1 : ℕ) : ℚ) /
                total_cooccurrences (fun x y => if x = y then 0 else 1) ["a", "b"] : ℚ) : ℝ) /
              (((marginal_probs (fun x y => if x = y then 0 else 1) ["a", "b"] "a" : ℚ) : ℝ) *
                ((marginal_probs (fun x y => if x = y then 0 else 1) ["a", "b"] "b" : ℚ) : ℝ)))
        else 0 := by
  have htot : (0 : ℚ) < total_cooccurrences (fun x y => if x = y then 0 else 1) ["a", "b"] := by
    simp [total_cooccurrences]
  exact ⟨by decide, htot,
    pmi_formula (fun x y => if x = y then 0 else 1) ["a", "b"] "a" "b"
      (by decide) (by decide) (by decide) htot⟩

/-- Claim C9: the ranker output is sorted descending by PMI score, has length
`min n (number of upper-triangle pairs)` — so at most n, and all pairs when
fewer than n exist — and the default n is 10. -/
theorem ranker_props (pm : Tag → Tag → ℝ) (V : List Tag) (n : ℕ) :
    List.Pairwise (fun r s : Tag × Tag × ℝ => s.2.2 ≤ r.2.2)
      (get_top_collocations pm V n)
    ∧ (get_top_collocations pm V n).length = min n (pmi_values pm V).length
    ∧ get_top_collocations pm V = get_top_collocations pm V 10 := by
  refine ⟨?_, ?_, rfl⟩
  · exact List.Pairwise.sublist (List.take_sublist _ _)
      (sorted_sort_values_desc (pmi_values pm V))
  · rw [get_top_collocations, List.length_take, sort_values_desc,
      List.length_reverse, List.length_mergeSort, List.length_reverse]

/-- Claim C10: the pipeline is a pure function of its input — runs on equal
record sequences give identical co-occurrence matrices, PMI matrices and
top-collocation lists.  The embedding has no nondeterminism: the only
set-like structure (`set(...)`) is immediately sorted, and the sort is
deterministic. -/
theorem pipeline_deterministic (d1 d2 : List Record) (h : d1 = d2) :
    analyze_hashtag_collocations d1 = analyze_hashtag_collocations d2 := by
  rw [h]

/-- Witness for C10: the worked-example records. -/
theorem pipeline_deterministic_witness :
    analyze_hashtag_collocations example_records =
      analyze_hashtag_collocations example_records :=
  pipeline_deterministic example_records example_records rfl

end RtData
